import Mathlib

/-!
Verification of the ZMK gaming HID report-splitting module.

This file gives a shallow embedding of the module implemented in
src/app/src/hid_gaming.c together with the header revision that this C file
compiles against (the eight-device revision: device indices 0..7, 18 key
slots per device, report identifier base 0x10, 64 tracked positions), and
proves the specification claims about it.

Modelling conventions:
- The C module's static globals (gaming_mode_active, gaming_reports,
  gaming_pressed_keys) become fields of an explicit state record
  `GamingState`; every C function becomes a Lean function threading that
  state, returning `Int × GamingState` when the C function returns `int`
  and just `GamingState` when it returns `void`.
- The fixed-size C arrays `keys[18]` become length-18 lists; the
  device-indexed array `gaming_reports[8]` and the position table
  `gaming_pressed_keys[64]` become functions updated with
  `Function.update` (every C access to them is bounds-checked first, so
  values outside the checked range are never consulted).
- `zmk_key_t` and `zmk_mod_t` live in a header that is not part of the
  sources; following the spec (sections 3 and 6: key codes and the
  modifier bitmask are single bytes on the wire, zero meaning "empty
  slot"), keys and modifiers are natural numbers, and every store into a
  `uint8_t` cell truncates with `% 256` exactly as the C assignment does.
- Modelled from the spec: the transport function `zmk_usb_hid_send_report`
  is only declared in the sources.  Per spec sections 5 and 7 a transport
  send is fire-and-forget and its failure is non-fatal and never rolls
  back state, so the embedded transmission driver records the transmitted
  report in an append-only log `sentLog` and reports success (0).
-/

/-! ## Constants from the header -/

def ZMK_GAMING_DEVICE_LEFT_HALF : Nat := 0

def ZMK_GAMING_DEVICE_GROUP_YU : Nat := 1

def ZMK_GAMING_DEVICE_GROUP_HJ : Nat := 2

def ZMK_GAMING_DEVICE_GROUP_NM : Nat := 3

def ZMK_GAMING_DEVICE_GROUP_REST : Nat := 4

def ZMK_GAMING_DEVICE_THUMBS : Nat := 5

def ZMK_GAMING_DEVICE_GROUP_ED : Nat := 6

def ZMK_GAMING_DEVICE_GROUP_RFV : Nat := 7

def ZMK_GAMING_DEVICE_COUNT : Nat := 8

def ZMK_GAMING_MAX_KEYS_PER_DEVICE : Nat := 18

def GAMING_MAX_POSITIONS : Nat := 64

def ZMK_HID_GAMING_REPORT_ID_LEFT_HALF : Nat := 0x10

/-- Zephyr errno value used by the guards (`return -EINVAL`). -/
def EINVAL : Int := 22

/-- Zephyr errno value used on key-slot exhaustion (`return -ENOMEM`). -/
def ENOMEM : Int := 12

/-! ## Data model -/

/-- Embedding of `struct zmk_gaming_keyboard_report_body`. -/
structure GamingReportBody where
  modifiers : Nat
  reserved : Nat
  keys : List Nat
deriving DecidableEq, Repr

/-- Embedding of `struct zmk_gaming_keyboard_report`. -/
structure GamingReport where
  report_id : Nat
  body : GamingReportBody
deriving DecidableEq, Repr

/-- One transmission performed by the transmission driver: the device index
passed to `zmk_hid_gaming_send_report` and the report it handed to the
transport. -/
structure SentReport where
  device : Nat
  report : GamingReport
deriving DecidableEq, Repr

/-- The module's mutable state: the three static globals of hid_gaming.c,
plus the append-only log of transmitted reports. -/
@[ext]
structure GamingState where
  gaming_mode_active : Bool
  gaming_reports : Nat → GamingReport
  gaming_pressed_keys : Nat → Nat
  sentLog : List SentReport

/-- Key slots of device `d` in state `s`. -/
def deviceKeys (s : GamingState) (d : Nat) : List Nat :=
  (s.gaming_reports d).body.keys

/-- Tracking-table entry for position `p` in state `s`. -/
def tableGet (s : GamingState) (p : Nat) : Nat :=
  s.gaming_pressed_keys p

/-! ## Device classifier -/

/-- Embedding of `zmk_hid_gaming_get_device_for_position`: the switch of the
eight-device revision, case labels in source order, with the case labels
that share the `default` branch all returning the rest-group device. -/
def zmk_hid_gaming_get_device_for_position (position : Nat) : Nat :=
  if position = 2 ∨ position = 14 ∨ position = 26 then
    ZMK_GAMING_DEVICE_LEFT_HALF
  else if position = 6 ∨ position = 7 then
    ZMK_GAMING_DEVICE_GROUP_YU
  else if position = 18 ∨ position = 19 then
    ZMK_GAMING_DEVICE_GROUP_HJ
  else if position = 30 ∨ position = 31 then
    ZMK_GAMING_DEVICE_GROUP_NM
  else if position = 37 ∨ position = 38 ∨ position = 39 ∨ position = 40 ∨
      position = 41 ∨ position = 42 then
    ZMK_GAMING_DEVICE_THUMBS
  else if position = 3 ∨ position = 15 then
    ZMK_GAMING_DEVICE_GROUP_ED
  else if position = 4 ∨ position = 16 ∨ position = 28 then
    ZMK_GAMING_DEVICE_GROUP_RFV
  else
    ZMK_GAMING_DEVICE_GROUP_REST

/-- The position values that appear as explicit `case` labels in the switch
of `zmk_hid_gaming_get_device_for_position` (including the labels that
fall through to the `default` branch). -/
def explicitCasePositions : List Nat :=
  [2, 14, 26, 6, 7, 18, 19, 30, 31, 37, 38, 39, 40, 41, 42, 3, 15, 4, 16, 28,
   1, 13, 25, 5, 17, 29, 27, 8, 9, 10, 20, 21, 22, 32, 33, 34]

/-! ## Key-slot scans

The press loop of `zmk_hid_gaming_keyboard_press` and the removal loop of
`zmk_hid_gaming_keyboard_release` walk the 18 key slots from index 0.  They
are embedded as structural recursions over the (always length-18) key list.
-/

/-- Outcome of the press loop over the key slots. -/
inductive PressOutcome where
  | already : PressOutcome
  | placed : List Nat → PressOutcome
  | full : PressOutcome
deriving DecidableEq, Repr

/-- The loop body of `zmk_hid_gaming_keyboard_press`: for each slot in
order, first compare with `key` (already pressed), then with 0 (store the
key there, truncated to the `uint8_t` cell).  Falling off the end is the
`-ENOMEM` case. -/
def pressSlots (key : Nat) : List Nat → PressOutcome
  | [] => .full
  | slot :: rest =>
    if slot = key then .already
    else if slot = 0 then .placed ((key % 256) :: rest)
    else
      match pressSlots key rest with
      | .already => .already
      | .placed r => .placed (slot :: r)
      | .full => .full

/-- The removal loop of `zmk_hid_gaming_keyboard_release`: find `key`,
shift all later slots down by one and zero the freed trailing slot;
`none` when the key is in no slot. -/
def releaseSlots (key : Nat) : List Nat → Option (List Nat)
  | [] => none
  | slot :: rest =>
    if slot = key then some (rest ++ [0])
    else (releaseSlots key rest).map (fun r => slot :: r)

/-! ## Transmission driver and per-device operations -/

/-- Embedding of `zmk_hid_gaming_send_report`: guard the device index,
stamp the report identifier as `0x10 + device_id`, hand the report to the
transport (recorded in `sentLog`; success per the spec-modelled
transport). -/
def zmk_hid_gaming_send_report (s : GamingState) (device_id : Nat) :
    Int × GamingState :=
  if ZMK_GAMING_DEVICE_COUNT ≤ device_id then (-EINVAL, s)
  else
    let r := s.gaming_reports device_id
    let r2 := { r with
      report_id := ZMK_HID_GAMING_REPORT_ID_LEFT_HALF + device_id }
    (0, { s with
      gaming_reports := Function.update s.gaming_reports device_id r2,
      sentLog := s.sentLog ++ [⟨device_id, r2⟩] })

/-- Embedding of `zmk_hid_gaming_keyboard_press`. -/
def zmk_hid_gaming_keyboard_press (s : GamingState) (device_id key : Nat) :
    Int × GamingState :=
  if ZMK_GAMING_DEVICE_COUNT ≤ device_id then (-EINVAL, s)
  else
    let r := s.gaming_reports device_id
    match pressSlots key r.body.keys with
    | .already => (0, s)
    | .placed ks =>
        let r1 := { r with body := { r.body with keys := ks } }
        zmk_hid_gaming_send_report
          { s with gaming_reports := Function.update s.gaming_reports device_id r1 }
          device_id
    | .full => (-ENOMEM, s)

/-- Embedding of `zmk_hid_gaming_keyboard_release`. -/
def zmk_hid_gaming_keyboard_release (s : GamingState) (device_id key : Nat) :
    Int × GamingState :=
  if ZMK_GAMING_DEVICE_COUNT ≤ device_id then (-EINVAL, s)
  else
    let r := s.gaming_reports device_id
    match releaseSlots key r.body.keys with
    | none => (0, s)
    | some ks =>
        let r1 := { r with body := { r.body with keys := ks } }
        zmk_hid_gaming_send_report
          { s with gaming_reports := Function.update s.gaming_reports device_id r1 }
          device_id

/-- Embedding of `zmk_hid_gaming_keyboard_clear` (a `void` function: the
caller observes only the state). -/
def zmk_hid_gaming_keyboard_clear (s : GamingState) (device_id : Nat) :
    GamingState :=
  if ZMK_GAMING_DEVICE_COUNT ≤ device_id then s
  else
    let r := s.gaming_reports device_id
    let r1 := { r with body := { r.body with
      keys := List.replicate ZMK_GAMING_MAX_KEYS_PER_DEVICE 0 } }
    (zmk_hid_gaming_send_report
      { s with gaming_reports := Function.update s.gaming_reports device_id r1 }
      device_id).2

/-- Embedding of `zmk_hid_gaming_keyboard_clear_all`: clear every device in
ascending device-index order. -/
def zmk_hid_gaming_keyboard_clear_all (s : GamingState) : GamingState :=
  (List.range ZMK_GAMING_DEVICE_COUNT).foldl zmk_hid_gaming_keyboard_clear s

/-- Embedding of `zmk_hid_gaming_register_mod` (`modifiers |= modifier`
into a `uint8_t` cell). -/
def zmk_hid_gaming_register_mod (s : GamingState) (device_id modifier : Nat) :
    Int × GamingState :=
  if ZMK_GAMING_DEVICE_COUNT ≤ device_id then (-EINVAL, s)
  else
    let r := s.gaming_reports device_id
    let r1 := { r with body := { r.body with
      modifiers := (r.body.modifiers ||| modifier) % 256 } }
    zmk_hid_gaming_send_report
      { s with gaming_reports := Function.update s.gaming_reports device_id r1 }
      device_id

/-- Embedding of `zmk_hid_gaming_unregister_mod` (`modifiers &= ~modifier`
on `uint8_t` cells). -/
def zmk_hid_gaming_unregister_mod (s : GamingState) (device_id modifier : Nat) :
    Int × GamingState :=
  if ZMK_GAMING_DEVICE_COUNT ≤ device_id then (-EINVAL, s)
  else
    let r := s.gaming_reports device_id
    let r1 := { r with body := { r.body with
      modifiers := r.body.modifiers &&& ((modifier % 256) ^^^ 255) } }
    zmk_hid_gaming_send_report
      { s with gaming_reports := Function.update s.gaming_reports device_id r1 }
      device_id

/-- Embedding of `zmk_hid_gaming_is_active`. -/
def zmk_hid_gaming_is_active (s : GamingState) : Bool :=
  s.gaming_mode_active

/-- The send loop `for i in 0..COUNT: zmk_hid_gaming_send_report(i)` that
appears in `zmk_hid_gaming_set_active` on a transition to active. -/
def sendAllReports (s : GamingState) : GamingState :=
  (List.range ZMK_GAMING_DEVICE_COUNT).foldl
    (fun st i => (zmk_hid_gaming_send_report st i).2) s

/-- Embedding of `zmk_hid_gaming_set_active` (a `void` function). -/
def zmk_hid_gaming_set_active (s : GamingState) (active : Bool) : GamingState :=
  if s.gaming_mode_active = active then s
  else
    let s1 := { s with gaming_mode_active := active }
    if active then
      sendAllReports (zmk_hid_gaming_keyboard_clear_all s1)
    else
      zmk_hid_gaming_keyboard_clear_all s1

/-! ## Position-based entry points -/

/-- Embedding of `zmk_hid_gaming_position_press`: record the key for the
position in the tracking table (a `uint8_t` cell, so truncated), then
delegate to the per-device press. -/
def zmk_hid_gaming_position_press (s : GamingState) (position key : Nat) :
    Int × GamingState :=
  if GAMING_MAX_POSITIONS ≤ position then (-EINVAL, s)
  else
    let device_id := zmk_hid_gaming_get_device_for_position position
    let s1 := { s with
      gaming_pressed_keys :=
        Function.update s.gaming_pressed_keys position (key % 256) }
    zmk_hid_gaming_keyboard_press s1 device_id key

/-- Embedding of `zmk_hid_gaming_position_release`. -/
def zmk_hid_gaming_position_release (s : GamingState) (position : Nat) :
    Int × GamingState :=
  if GAMING_MAX_POSITIONS ≤ position then (-EINVAL, s)
  else if s.gaming_pressed_keys position = 0 then (0, s)
  else
    let device_id := zmk_hid_gaming_get_device_for_position position
    let key := s.gaming_pressed_keys position
    let s1 := { s with
      gaming_pressed_keys := Function.update s.gaming_pressed_keys position 0 }
    zmk_hid_gaming_keyboard_release s1 device_id key

/-- The state produced by `zmk_hid_gaming_init`: reports with identifier
`0x10 + i` and all-zero body, all-zero tracking table, gaming mode active
(its C initializer), nothing yet transmitted by a mutation.  The initial
enumeration burst only re-sends this same data. -/
def zmkGamingInitState : GamingState where
  gaming_mode_active := true
  gaming_reports := fun i =>
    ⟨ZMK_HID_GAMING_REPORT_ID_LEFT_HALF + i,
      ⟨0, 0, List.replicate ZMK_GAMING_MAX_KEYS_PER_DEVICE 0⟩⟩
  gaming_pressed_keys := fun _ => 0
  sentLog := []

/-! ## Event sequences -/

/-- A call to one of the two per-device key mutators. -/
inductive KbdOp where
  | press : Nat → KbdOp
  | release : Nat → KbdOp
deriving DecidableEq, Repr

/-- The key code carried by a per-device operation. -/
def KbdOp.key : KbdOp → Nat
  | .press k => k
  | .release k => k

/-- Run a sequence of press/release calls against device `d`. -/
def runKbdOps (s : GamingState) (d : Nat) (ops : List KbdOp) : GamingState :=
  ops.foldl
    (fun st op =>
      match op with
      | .press k => (zmk_hid_gaming_keyboard_press st d k).2
      | .release k => (zmk_hid_gaming_keyboard_release st d k).2)
    s

/-- Run a sequence of presses of the given keys against device `d`. -/
def pressSeqState (s : GamingState) (d : Nat) (ks : List Nat) : GamingState :=
  ks.foldl (fun st k => (zmk_hid_gaming_keyboard_press st d k).2) s

/-- A call to one of the two position-based entry points. -/
inductive PosEvent where
  | press : Nat → Nat → PosEvent
  | release : Nat → PosEvent
deriving DecidableEq, Repr

/-- The position an event addresses. -/
def PosEvent.epos : PosEvent → Nat
  | .press p _ => p
  | .release p => p

/-- Run a sequence of position press/release calls. -/
def runPosEvents (s : GamingState) (evs : List PosEvent) : GamingState :=
  evs.foldl
    (fun st e =>
      match e with
      | .press p k => (zmk_hid_gaming_position_press st p k).2
      | .release p => (zmk_hid_gaming_position_release st p).2)
    s

/-- The tracking-table entry for position `p` dictated by the event history
alone: the (truncated) key of the most recent in-bounds press for `p`, or 0
after a release for `p` or when `p` was never pressed. -/
def trackTable (evs : List PosEvent) (p : Nat) : Nat :=
  evs.foldl
    (fun t e =>
      match e with
      | .press q k => if q = p ∧ q < GAMING_MAX_POSITIONS then k % 256 else t
      | .release q => if q = p ∧ q < GAMING_MAX_POSITIONS then 0 else t)
    0

/-! ## Claim-level predicates -/

/-- Well-formed key slots: a duplicate-free block of nonzero keys followed
by zeros.  This is the report invariant of spec section 3. -/
def SlotsWF (l : List Nat) : Prop :=
  ∃ front n, 0 ∉ front ∧ front.Nodup ∧ l = front ++ List.replicate n 0

/-- No nonzero key code occupies two slots. -/
def NoDupNonzero (l : List Nat) : Prop :=
  ∀ i j (hi : i < l.length) (hj : j < l.length),
    i ≠ j → l.get ⟨i, hi⟩ ≠ 0 → l.get ⟨i, hi⟩ ≠ l.get ⟨j, hj⟩

/-- No internal gap: a zero slot is never followed by a nonzero slot. -/
def NoInternalGap (l : List Nat) : Prop :=
  ∀ i j (hi : i < l.length) (hj : j < l.length),
    i < j → l.get ⟨i, hi⟩ = 0 → l.get ⟨j, hj⟩ = 0

/-- State-level content of claim C5: a nonzero tracking-table entry was
delivered to the classified device's report and not released since, hence
is currently among that device's key slots. -/
def TrackedKeyDelivered (s : GamingState) (p : Nat) : Prop :=
  tableGet s p ≠ 0 →
    tableGet s p ∈ deviceKeys s (zmk_hid_gaming_get_device_for_position p)

/-- What a call to one of the five device-indexed operations hands back to
its caller: an `int`, or nothing for the `void` operation `clear`. -/
inductive CRet where
  | i : Int → CRet
  | unit : CRet
deriving DecidableEq, Repr

/-- Selector for the five device-indexed operations of the module. -/
inductive DevOp where
  | press : Nat → DevOp
  | release : Nat → DevOp
  | regMod : Nat → DevOp
  | unregMod : Nat → DevOp
  | clear : DevOp
deriving DecidableEq, Repr

/-- Dispatch a device-indexed operation, keeping the C return type: the
four `int`-returning operations yield `CRet.i`, the `void` operation
`clear` yields `CRet.unit`. -/
def runDevOp (s : GamingState) (op : DevOp) (d : Nat) : CRet × GamingState :=
  match op with
  | .press k =>
      let r := zmk_hid_gaming_keyboard_press s d k
      (.i r.1, r.2)
  | .release k =>
      let r := zmk_hid_gaming_keyboard_release s d k
      (.i r.1, r.2)
  | .regMod m =>
      let r := zmk_hid_gaming_register_mod s d m
      (.i r.1, r.2)
  | .unregMod m =>
      let r := zmk_hid_gaming_unregister_mod s d m
      (.i r.1, r.2)
  | .clear => (.unit, zmk_hid_gaming_keyboard_clear s d)

/-- The report device `d` carries after a key-slot mutation followed by the
transmission driver: slots replaced by `ks`, identifier stamped, modifier
bitmask and reserved byte untouched. -/
def stampedRep (s : GamingState) (d : Nat) (ks : List Nat) : GamingReport :=
  ⟨ZMK_HID_GAMING_REPORT_ID_LEFT_HALF + d,
    ⟨(s.gaming_reports d).body.modifiers, (s.gaming_reports d).body.reserved,
      ks⟩⟩

/-- The net state effect of replacing device `d`'s key slots by `ks` and
then running the transmission driver on `d`. -/
def applySend (s : GamingState) (d : Nat) (ks : List Nat) : GamingState :=
  { s with
    gaming_reports := Function.update s.gaming_reports d (stampedRep s d ks),
    sentLog := s.sentLog ++ [⟨d, stampedRep s d ks⟩] }

/-- The report device `i` holds right after `zmk_hid_gaming_keyboard_clear`
ran on it in state `s`: identifier stamped, keys zeroed, modifier bitmask
and reserved byte untouched. -/
def clearedRep (s : GamingState) (i : Nat) : GamingReport :=
  stampedRep s i (List.replicate ZMK_GAMING_MAX_KEYS_PER_DEVICE 0)

/-- The first `j` steps of the `clear_all` loop. -/
def clearUpTo (s : GamingState) (j : Nat) : GamingState :=
  (List.range j).foldl zmk_hid_gaming_keyboard_clear s

/-- The first `j` steps of the snapshot-send loop of `set_active`. -/
def sendUpTo (s : GamingState) (j : Nat) : GamingState :=
  (List.range j).foldl (fun st i => (zmk_hid_gaming_send_report st i).2) s

/-! ## Lemmas about the slot scans -/

theorem pressSlots_mem_front {front : List Nat} (t : List Nat) {k : Nat}
    (h0 : 0 ∉ front) (hk : k ∈ front) :
    pressSlots k (front ++ t) = .already := by
  induction front with
  | nil => cases hk
  | cons a fr ih =>
    by_cases hak : a = k
    · simp [pressSlots, hak]
    · have ha0 : a ≠ 0 := fun h => h0 (h ▸ List.mem_cons_self a fr)
      have hk' : k ∈ fr := by
        rcases List.mem_cons.mp hk with h | h
        · exact absurd h.symm hak
        · exact h
      have h0' : 0 ∉ fr := fun h => h0 (List.mem_cons_of_mem a h)
      simp only [List.cons_append, pressSlots, if_neg hak, if_neg ha0,
        List.append_eq, ih h0' hk']

theorem pressSlots_zero_tail {front : List Nat} (t : List Nat)
    (h0 : 0 ∉ front) :
    pressSlots 0 (front ++ 0 :: t) = .already := by
  induction front with
  | nil => simp [pressSlots]
  | cons a fr ih =>
    have ha0 : a ≠ 0 := fun h => h0 (h ▸ List.mem_cons_self a fr)
    have h0' : 0 ∉ fr := fun h => h0 (List.mem_cons_of_mem a h)
    simp only [List.cons_append, pressSlots, if_neg ha0, List.append_eq,
      ih h0']

theorem pressSlots_placed {front : List Nat} (t : List Nat) {k : Nat}
    (h0 : 0 ∉ front) (hk : k ∉ front) (hk0 : k ≠ 0) (hk256 : k < 256) :
    pressSlots k (front ++ 0 :: t) = .placed (front ++ k :: t) := by
  induction front with
  | nil => simp [pressSlots, Ne.symm hk0, Nat.mod_eq_of_lt hk256]
  | cons a fr ih =>
    have hak : a ≠ k := fun h => hk (h ▸ List.mem_cons_self a fr)
    have ha0 : a ≠ 0 := fun h => h0 (h ▸ List.mem_cons_self a fr)
    have hk' : k ∉ fr := fun h => hk (List.mem_cons_of_mem a h)
    have h0' : 0 ∉ fr := fun h => h0 (List.mem_cons_of_mem a h)
    simp only [List.cons_append, pressSlots, if_neg hak, if_neg ha0,
      List.append_eq, ih h0' hk']

theorem pressSlots_full {front : List Nat} {k : Nat}
    (h0 : 0 ∉ front) (hk : k ∉ front) :
    pressSlots k front = .full := by
  induction front with
  | nil => rfl
  | cons a fr ih =>
    have hak : a ≠ k := fun h => hk (h ▸ List.mem_cons_self a fr)
    have ha0 : a ≠ 0 := fun h => h0 (h ▸ List.mem_cons_self a fr)
    have hk' : k ∉ fr := fun h => hk (List.mem_cons_of_mem a h)
    have h0' : 0 ∉ fr := fun h => h0 (List.mem_cons_of_mem a h)
    simp only [pressSlots, if_neg hak, if_neg ha0, ih h0' hk']

theorem releaseSlots_not_mem {l : List Nat} {k : Nat} (hk : k ∉ l) :
    releaseSlots k l = none := by
  induction l with
  | nil => rfl
  | cons a fr ih =>
    have hak : a ≠ k := fun h => hk (h ▸ List.mem_cons_self a fr)
    have hk' : k ∉ fr := fun h => hk (List.mem_cons_of_mem a h)
    simp only [releaseSlots, if_neg hak, List.append_eq, ih hk',
      Option.map_none']

theorem releaseSlots_found {pre : List Nat} (post : List Nat) {k : Nat}
    (hk : k ∉ pre) :
    releaseSlots k (pre ++ k :: post) = some (pre ++ (post ++ [0])) := by
  induction pre with
  | nil => simp [releaseSlots]
  | cons a fr ih =>
    have hak : a ≠ k := fun h => hk (h ▸ List.mem_cons_self a fr)
    have hk' : k ∉ fr := fun h => hk (List.mem_cons_of_mem a h)
    simp only [List.cons_append, releaseSlots, if_neg hak, List.append_eq,
      ih hk', Option.map_some', List.cons_append]

theorem pressSlots_wf {l ks : List Nat} {k : Nat} (hwf : SlotsWF l)
    (hk0 : k ≠ 0) (hk256 : k < 256) (h : pressSlots k l = .placed ks) :
    SlotsWF ks := by
  obtain ⟨front, n, h0, hnd, rfl⟩ := hwf
  by_cases hkf : k ∈ front
  · rw [pressSlots_mem_front _ h0 hkf] at h
    exact absurd h (by simp)
  · cases n with
    | zero =>
      rw [List.replicate_zero, List.append_nil] at h
      rw [pressSlots_full h0 hkf] at h
      exact absurd h (by simp)
    | succ m =>
      rw [List.replicate_succ] at h
      rw [pressSlots_placed _ h0 hkf hk0 hk256] at h
      have hks : ks = front ++ k :: List.replicate m 0 := by
        cases h; rfl
      refine ⟨front ++ [k], m, ?_, ?_, ?_⟩
      · intro hmem
        rcases List.mem_append.mp hmem with hx | hx
        · exact h0 hx
        · exact hk0 (List.mem_singleton.mp hx).symm
      · exact List.nodup_append.mpr ⟨hnd, List.nodup_singleton k,
          fun a ha hb => hkf ((List.mem_singleton.mp hb) ▸ ha)⟩
      · rw [hks, List.append_assoc, List.singleton_append]

theorem releaseSlots_wf {l ks : List Nat} {k : Nat} (hwf : SlotsWF l)
    (h : releaseSlots k l = some ks) : SlotsWF ks := by
  obtain ⟨front, n, h0, hnd, rfl⟩ := hwf
  by_cases hkl : k ∈ front ++ List.replicate n 0
  · rcases List.mem_append.mp hkl with hkf | hkr
    · obtain ⟨f1, f2, rfl⟩ := List.append_of_mem hkf
      have hsplit := List.nodup_append.mp hnd
      have hnf : k ∉ f1 := fun hx =>
        hsplit.2.2 hx (List.mem_cons_self k f2)
      rw [List.append_assoc, List.cons_append, releaseSlots_found _ hnf] at h
      have hks : ks = f1 ++ ((f2 ++ List.replicate n 0) ++ [0]) := by
        cases h; rfl
      refine ⟨f1 ++ f2, n + 1, ?_, ?_, ?_⟩
      · intro hmem
        rcases List.mem_append.mp hmem with hx | hx
        · exact h0 (List.mem_append.mpr (Or.inl hx))
        · exact h0 (List.mem_append.mpr (Or.inr (List.mem_cons_of_mem k hx)))
      · exact List.nodup_append.mpr ⟨hsplit.1, hsplit.2.1.of_cons,
          fun a ha hb => hsplit.2.2 ha (List.mem_cons_of_mem k hb)⟩
      · rw [hks, List.replicate_succ' n 0]
        simp [List.append_assoc]
    · have hk0 : k = 0 := List.eq_of_mem_replicate hkr
      cases n with
      | zero => simp at hkr
      | succ m =>
        subst hk0
        rw [List.replicate_succ, releaseSlots_found _ h0] at h
        have hks : ks = front ++ (List.replicate m 0 ++ [0]) := by
          cases h; rfl
        refine ⟨front, m + 1, h0, hnd, ?_⟩
        rw [hks, List.replicate_succ' m 0]
  · rw [releaseSlots_not_mem hkl] at h
    exact absurd h (by simp)

/-! ## State-level characterizations of the per-device operations -/

theorem press_char (s : GamingState) (d k : Nat)
    (hd : d < ZMK_GAMING_DEVICE_COUNT) :
    zmk_hid_gaming_keyboard_press s d k =
      match pressSlots k (deviceKeys s d) with
      | .already => (0, s)
      | .placed ks => (0, applySend s d ks)
      | .full => (-ENOMEM, s) := by
  have hnot : ¬ ZMK_GAMING_DEVICE_COUNT ≤ d := Nat.not_le.mpr hd
  unfold zmk_hid_gaming_keyboard_press
  rw [if_neg hnot]
  cases hps : pressSlots k (deviceKeys s d) with
  | already => simp only [deviceKeys] at hps; simp only [hps]
  | full => simp only [deviceKeys] at hps; simp only [hps]
  | placed ks =>
    simp only [deviceKeys] at hps
    simp only [hps, zmk_hid_gaming_send_report, if_neg hnot,
      Function.update_same, Function.update_idem, applySend, stampedRep]

theorem release_char (s : GamingState) (d k : Nat)
    (hd : d < ZMK_GAMING_DEVICE_COUNT) :
    zmk_hid_gaming_keyboard_release s d k =
      match releaseSlots k (deviceKeys s d) with
      | none => (0, s)
      | some ks => (0, applySend s d ks) := by
  have hnot : ¬ ZMK_GAMING_DEVICE_COUNT ≤ d := Nat.not_le.mpr hd
  unfold zmk_hid_gaming_keyboard_release
  rw [if_neg hnot]
  cases hps : releaseSlots k (deviceKeys s d) with
  | none => simp only [deviceKeys] at hps; simp only [hps]
  | some ks =>
    simp only [deviceKeys] at hps
    simp only [hps, zmk_hid_gaming_send_report, if_neg hnot,
      Function.update_same, Function.update_idem, applySend, stampedRep]

theorem clear_char (s : GamingState) (d : Nat)
    (hd : d < ZMK_GAMING_DEVICE_COUNT) :
    zmk_hid_gaming_keyboard_clear s d =
      applySend s d (List.replicate ZMK_GAMING_MAX_KEYS_PER_DEVICE 0) := by
  have hnot : ¬ ZMK_GAMING_DEVICE_COUNT ≤ d := Nat.not_le.mpr hd
  unfold zmk_hid_gaming_keyboard_clear zmk_hid_gaming_send_report
  simp only [if_neg hnot, Function.update_same, Function.update_idem,
    applySend, stampedRep]

theorem deviceKeys_applySend (s : GamingState) (d : Nat) (ks : List Nat) :
    deviceKeys (applySend s d ks) d = ks := by
  simp [deviceKeys, applySend, stampedRep, Function.update_same]

/-! ## From the slot invariant to the claim predicates -/

theorem get_append_left_zeros (fr t : List Nat) :
    ∀ i (h : i < fr.length) (h2 : i < (fr ++ t).length),
      (fr ++ t).get ⟨i, h2⟩ = fr.get ⟨i, h⟩ := by
  induction fr with
  | nil => intro i h _; exact absurd h (by simp)
  | cons a fr ih =>
    intro i h h2
    cases i with
    | zero => rfl
    | succ i =>
      have h3 : i < fr.length := Nat.lt_of_succ_lt_succ h
      have h4 : i < (fr ++ t).length := Nat.lt_of_succ_lt_succ (by simpa using h2)
      exact ih i h3 h4

theorem get_tail_zero (fr : List Nat) (n : Nat) :
    ∀ i (h2 : i < (fr ++ List.replicate n 0).length), fr.length ≤ i →
      (fr ++ List.replicate n 0).get ⟨i, h2⟩ = 0 := by
  induction fr with
  | nil =>
    intro i h2 _
    have hmem : (List.replicate n 0).get ⟨i, by simpa using h2⟩ ∈
        List.replicate n 0 := List.get_mem _ _ _
    exact List.eq_of_mem_replicate hmem
  | cons a fr ih =>
    intro i h2 hle
    cases i with
    | zero => exact absurd hle (by simp)
    | succ i =>
      exact ih i (Nat.lt_of_succ_lt_succ (by simpa using h2))
        (Nat.le_of_succ_le_succ hle)

theorem SlotsWF.noGap {l : List Nat} (h : SlotsWF l) : NoInternalGap l := by
  obtain ⟨fr, n, h0, hnd, rfl⟩ := h
  intro i j hi hj hij hzi
  have hfi : fr.length ≤ i := by
    by_contra hlt
    push_neg at hlt
    have hget := get_append_left_zeros fr (List.replicate n 0) i hlt hi
    rw [hget] at hzi
    have hmem : fr.get ⟨i, hlt⟩ ∈ fr := List.get_mem fr i hlt
    rw [hzi] at hmem
    exact h0 hmem
  exact get_tail_zero fr n j hj (le_trans hfi (Nat.le_of_lt hij))

theorem SlotsWF.noDup {l : List Nat} (h : SlotsWF l) : NoDupNonzero l := by
  obtain ⟨fr, n, h0, hnd, rfl⟩ := h
  intro i j hi hj hij hnz heq
  have hfi : i < fr.length := by
    by_contra hge
    push_neg at hge
    exact hnz (get_tail_zero fr n i hi hge)
  have hfj : j < fr.length := by
    by_contra hge
    push_neg at hge
    exact hnz (heq.trans (get_tail_zero fr n j hj hge))
  rw [get_append_left_zeros fr _ i hfi hi,
    get_append_left_zeros fr _ j hfj hj] at heq
  have hinj := List.nodup_iff_injective_get.mp hnd heq
  exact hij (by simpa using congrArg Fin.val hinj)

theorem slotsWF_init (d : Nat) : SlotsWF (deviceKeys zmkGamingInitState d) :=
  ⟨[], ZMK_GAMING_MAX_KEYS_PER_DEVICE, by simp, List.nodup_nil, rfl⟩

theorem press_preserves_wf (s : GamingState) (d k : Nat)
    (hd : d < ZMK_GAMING_DEVICE_COUNT) (hk0 : k ≠ 0) (hk256 : k < 256)
    (h : SlotsWF (deviceKeys s d)) :
    SlotsWF (deviceKeys (zmk_hid_gaming_keyboard_press s d k).2 d) := by
  rw [press_char s d k hd]
  cases hps : pressSlots k (deviceKeys s d) with
  | already => simpa using h
  | full => simpa using h
  | placed ks =>
    simpa [deviceKeys_applySend] using pressSlots_wf h hk0 hk256 hps

theorem release_preserves_wf (s : GamingState) (d k : Nat)
    (hd : d < ZMK_GAMING_DEVICE_COUNT) (h : SlotsWF (deviceKeys s d)) :
    SlotsWF (deviceKeys (zmk_hid_gaming_keyboard_release s d k).2 d) := by
  rw [release_char s d k hd]
  cases hps : releaseSlots k (deviceKeys s d) with
  | none => simpa using h
  | some ks => simpa [deviceKeys_applySend] using releaseSlots_wf h hps

theorem runKbdOps_wf (d : Nat) (hd : d < ZMK_GAMING_DEVICE_COUNT) :
    ∀ (ops : List KbdOp) (s : GamingState),
      SlotsWF (deviceKeys s d) →
      (∀ op ∈ ops, KbdOp.key op ≠ 0 ∧ KbdOp.key op < 256) →
      SlotsWF (deviceKeys (runKbdOps s d ops) d) := by
  intro ops
  induction ops with
  | nil => intro s hs _; exact hs
  | cons op ops ih =>
    intro s hs hops
    have hop := hops op (List.mem_cons_self op ops)
    have hops' : ∀ o ∈ ops, KbdOp.key o ≠ 0 ∧ KbdOp.key o < 256 :=
      fun o ho => hops o (List.mem_cons_of_mem op ho)
    cases op with
    | press k =>
      exact ih _ (press_preserves_wf s d k hd hop.1 hop.2 hs) hops'
    | release k =>
      exact ih _ (release_preserves_wf s d k hd hs) hops'

/-- C1: for every sequence of `zmk_hid_gaming_keyboard_press` and
`zmk_hid_gaming_keyboard_release` calls with nonzero key codes on one
device, starting from the initial all-zero report, the device's key slots
never hold the same nonzero key code twice and never have an internal gap
(no zero slot followed by a nonzero slot). -/
theorem C1_press_release_invariant (d : Nat) (ops : List KbdOp)
    (hd : d < ZMK_GAMING_DEVICE_COUNT)
    (hops : ∀ op ∈ ops, KbdOp.key op ≠ 0 ∧ KbdOp.key op < 256) :
    NoDupNonzero (deviceKeys (runKbdOps zmkGamingInitState d ops) d) ∧
    NoInternalGap (deviceKeys (runKbdOps zmkGamingInitState d ops) d) := by
  have hwf := runKbdOps_wf d hd ops zmkGamingInitState (slotsWF_init d) hops
  exact ⟨hwf.noDup, hwf.noGap⟩

/-- Witness for C1 at a concrete device and operation sequence. -/
theorem C1_witness :
    (0 < ZMK_GAMING_DEVICE_COUNT) ∧
    (∀ op ∈ [KbdOp.press 4, KbdOp.press 5, KbdOp.release 4],
      KbdOp.key op ≠ 0 ∧ KbdOp.key op < 256) ∧
    (NoDupNonzero (deviceKeys (runKbdOps zmkGamingInitState 0
        [KbdOp.press 4, KbdOp.press 5, KbdOp.release 4]) 0) ∧
     NoInternalGap (deviceKeys (runKbdOps zmkGamingInitState 0
        [KbdOp.press 4, KbdOp.press 5, KbdOp.release 4]) 0)) :=
  ⟨by decide, by decide,
    C1_press_release_invariant 0 [KbdOp.press 4, KbdOp.press 5, KbdOp.release 4]
      (by decide) (by decide)⟩

/-- C2 counterexample: if key 4 is already pressed on device 0, pressing it
again (a no-op) and then releasing it removes the key, so the slot sequence
before that press is not restored.  This refutes the round-trip claim in
the generality stated (for every device state and every key code). -/
theorem C2_counterexample :
    deviceKeys (zmk_hid_gaming_keyboard_release
      (zmk_hid_gaming_keyboard_press
        (zmk_hid_gaming_keyboard_press zmkGamingInitState 0 4).2 0 4).2 0 4).2 0 ≠
    deviceKeys (zmk_hid_gaming_keyboard_press zmkGamingInitState 0 4).2 0 := by
  decide

/-- C2 (amended): for every state whose device-`d` slots satisfy the report
invariant and every nonzero key code `k` not currently in any slot of `d`,
`zmk_hid_gaming_keyboard_press(d, k)` followed by
`zmk_hid_gaming_keyboard_release(d, k)` restores the exact key slot
sequence of device `d` that existed before the press. -/
theorem C2_round_trip_restores (s : GamingState) (d k : Nat)
    (hd : d < ZMK_GAMING_DEVICE_COUNT)
    (hwf : SlotsWF (deviceKeys s d))
    (hk0 : k ≠ 0) (hk256 : k < 256)
    (hk : k ∉ deviceKeys s d) :
    deviceKeys (zmk_hid_gaming_keyboard_release
      (zmk_hid_gaming_keyboard_press s d k).2 d k).2 d = deviceKeys s d := by
  obtain ⟨fr, n, h0, hnd, hl⟩ := hwf
  have hkf : k ∉ fr := fun hx =>
    hk (by rw [hl]; exact List.mem_append.mpr (Or.inl hx))
  cases n with
  | zero =>
    rw [List.replicate_zero, List.append_nil] at hl
    have hfull : pressSlots k (deviceKeys s d) = .full := by
      rw [hl]; exact pressSlots_full h0 hkf
    rw [press_char s d k hd, hfull]
    simp only []
    have hnone : releaseSlots k (deviceKeys s d) = none := releaseSlots_not_mem hk
    rw [release_char s d k hd, hnone]
  | succ m =>
    rw [List.replicate_succ] at hl
    have hplaced : pressSlots k (deviceKeys s d) =
        .placed (fr ++ k :: List.replicate m 0) := by
      rw [hl]; exact pressSlots_placed _ h0 hkf hk0 hk256
    rw [press_char s d k hd, hplaced]
    simp only []
    rw [release_char (applySend s d (fr ++ k :: List.replicate m 0)) d k hd,
      deviceKeys_applySend, releaseSlots_found (List.replicate m 0) hkf]
    simp only [deviceKeys_applySend]
    rw [hl]
    congr 1
    rw [← List.replicate_succ' m 0, List.replicate_succ]

/-- Witness for the amended C2 at a concrete state and key. -/
theorem C2_witness :
    (0 < ZMK_GAMING_DEVICE_COUNT) ∧
    SlotsWF (deviceKeys zmkGamingInitState 0) ∧
    (4 ≠ 0) ∧ (4 < 256) ∧ 4 ∉ deviceKeys zmkGamingInitState 0 ∧
    deviceKeys (zmk_hid_gaming_keyboard_release
      (zmk_hid_gaming_keyboard_press zmkGamingInitState 0 4).2 0 4).2 0 =
      deviceKeys zmkGamingInitState 0 :=
  ⟨by decide, ⟨[], 18, by simp, List.nodup_nil, rfl⟩, by decide, by decide,
    by decide,
    C2_round_trip_restores zmkGamingInitState 0 4 (by decide)
      ⟨[], 18, by simp, List.nodup_nil, rfl⟩ (by decide) (by decide) (by decide)⟩

/-! ## Capacity -/

theorem pressSeqState_append (s : GamingState) (d : Nat) (l1 l2 : List Nat) :
    pressSeqState s d (l1 ++ l2) = pressSeqState (pressSeqState s d l1) d l2 :=
  List.foldl_append _ _ l1 l2

theorem take_succ_of_lt {ks : List Nat} {j : Nat} (h : j < ks.length) :
    ks.take (j + 1) = ks.take j ++ [ks.get ⟨j, h⟩] := by
  rw [List.take_succ, List.getElem?_eq_getElem h]
  simp

theorem pressSeq_shape (d : Nat) (ks : List Nat)
    (hd : d < ZMK_GAMING_DEVICE_COUNT)
    (hnd : ks.Nodup)
    (hall : ∀ k ∈ ks, k ≠ 0 ∧ k < 256) :
    ∀ j, j ≤ ZMK_GAMING_MAX_KEYS_PER_DEVICE → j ≤ ks.length →
      deviceKeys (pressSeqState zmkGamingInitState d (ks.take j)) d =
        ks.take j ++ List.replicate (ZMK_GAMING_MAX_KEYS_PER_DEVICE - j) 0 := by
  intro j
  induction j with
  | zero => intro _ _; rfl
  | succ j ih =>
    intro hj18 hjlen
    have hjlen' : j < ks.length := Nat.lt_of_succ_le hjlen
    have hj18' : j < ZMK_GAMING_MAX_KEYS_PER_DEVICE := Nat.lt_of_succ_le hj18
    have hshape := ih (Nat.le_of_lt hj18') (Nat.le_of_lt hjlen')
    set x := ks.get ⟨j, hjlen'⟩ with hx
    have hmem : x ∈ ks := List.get_mem ks j hjlen'
    have hx0 : x ≠ 0 := (hall x hmem).1
    have hx256 : x < 256 := (hall x hmem).2
    have hnd' : (ks.take (j + 1)).Nodup :=
      hnd.sublist (List.take_sublist (j + 1) ks)
    rw [take_succ_of_lt hjlen'] at hnd'
    have hxnot : x ∉ ks.take j := fun hmem' =>
      (List.nodup_append.mp hnd').2.2 hmem' (List.mem_singleton_self x)
    have h0take : 0 ∉ ks.take j := fun hmem' =>
      (hall 0 (List.take_subset j ks hmem')).1 rfl
    have hrep : ZMK_GAMING_MAX_KEYS_PER_DEVICE - j =
        (ZMK_GAMING_MAX_KEYS_PER_DEVICE - (j + 1)) + 1 := by
      unfold ZMK_GAMING_MAX_KEYS_PER_DEVICE at hj18' ⊢
      omega
    rw [take_succ_of_lt hjlen', pressSeqState_append]
    have hstep : pressSeqState (pressSeqState zmkGamingInitState d (ks.take j))
        d [x] = (zmk_hid_gaming_keyboard_press
          (pressSeqState zmkGamingInitState d (ks.take j)) d x).2 := rfl
    rw [hstep]
    have hplaced : pressSlots x
        (deviceKeys (pressSeqState zmkGamingInitState d (ks.take j)) d) =
        .placed (ks.take j ++ x ::
          List.replicate (ZMK_GAMING_MAX_KEYS_PER_DEVICE - (j + 1)) 0) := by
      rw [hshape, hrep, List.replicate_succ]
      exact pressSlots_placed _ h0take hxnot hx0 hx256
    rw [press_char _ d x hd, hplaced]
    simp only [deviceKeys_applySend]
    rw [List.append_assoc, List.singleton_append]

/-- C3: pressing 19 distinct nonzero key codes on one device whose report
starts empty succeeds for the first 18 presses and fails with `-ENOMEM`
for the 19th, and the failing press leaves the state (in particular every
existing key slot) unchanged. -/
theorem C3_capacity (d : Nat) (ks : List Nat)
    (hd : d < ZMK_GAMING_DEVICE_COUNT)
    (hlen : ks.length = ZMK_GAMING_MAX_KEYS_PER_DEVICE + 1)
    (hnd : ks.Nodup)
    (hall : ∀ k ∈ ks, k ≠ 0 ∧ k < 256) :
    (∀ j, j < ZMK_GAMING_MAX_KEYS_PER_DEVICE →
      (zmk_hid_gaming_keyboard_press
        (pressSeqState zmkGamingInitState d (ks.take j)) d (ks.getD j 0)).1
        = 0) ∧
    (zmk_hid_gaming_keyboard_press
      (pressSeqState zmkGamingInitState d
        (ks.take ZMK_GAMING_MAX_KEYS_PER_DEVICE)) d
      (ks.getD ZMK_GAMING_MAX_KEYS_PER_DEVICE 0)) =
      (-ENOMEM, pressSeqState zmkGamingInitState d
        (ks.take ZMK_GAMING_MAX_KEYS_PER_DEVICE)) := by
  constructor
  · intro j hj18
    have hjlen : j < ks.length := by omega
    have hgetD : ks.getD j 0 = ks.get ⟨j, hjlen⟩ := by
      rw [List.getD_eq_getElem?_getD, List.getElem?_eq_getElem hjlen]
      rfl
    set x := ks.get ⟨j, hjlen⟩ with hx
    have hmem : x ∈ ks := List.get_mem ks j hjlen
    have hshape := pressSeq_shape d ks hd hnd hall j (Nat.le_of_lt hj18)
      (Nat.le_of_lt hjlen)
    have hnd' : (ks.take (j + 1)).Nodup :=
      hnd.sublist (List.take_sublist (j + 1) ks)
    rw [take_succ_of_lt hjlen] at hnd'
    have hxnot : x ∉ ks.take j := fun hmem' =>
      (List.nodup_append.mp hnd').2.2 hmem' (List.mem_singleton_self x)
    have h0take : 0 ∉ ks.take j := fun hmem' =>
      (hall 0 (List.take_subset j ks hmem')).1 rfl
    have hrep : ZMK_GAMING_MAX_KEYS_PER_DEVICE - j =
        (ZMK_GAMING_MAX_KEYS_PER_DEVICE - (j + 1)) + 1 := by
      unfold ZMK_GAMING_MAX_KEYS_PER_DEVICE at hj18 ⊢
      omega
    have hplaced : pressSlots x
        (deviceKeys (pressSeqState zmkGamingInitState d (ks.take j)) d) =
        .placed (ks.take j ++ x ::
          List.replicate (ZMK_GAMING_MAX_KEYS_PER_DEVICE - (j + 1)) 0) := by
      rw [hshape, hrep, List.replicate_succ]
      exact pressSlots_placed _ h0take hxnot (hall x hmem).1 (hall x hmem).2
    rw [hgetD, press_char _ d x hd, hplaced]
  · have hjlen : ZMK_GAMING_MAX_KEYS_PER_DEVICE < ks.length := by omega
    have hgetD : ks.getD ZMK_GAMING_MAX_KEYS_PER_DEVICE 0 =
        ks.get ⟨ZMK_GAMING_MAX_KEYS_PER_DEVICE, hjlen⟩ := by
      rw [List.getD_eq_getElem?_getD, List.getElem?_eq_getElem hjlen]
      rfl
    set x := ks.get ⟨ZMK_GAMING_MAX_KEYS_PER_DEVICE, hjlen⟩ with hx
    have hshape := pressSeq_shape d ks hd hnd hall ZMK_GAMING_MAX_KEYS_PER_DEVICE
      (le_refl _) (Nat.le_of_lt hjlen)
    have hnd' : (ks.take (ZMK_GAMING_MAX_KEYS_PER_DEVICE + 1)).Nodup :=
      hnd.sublist (List.take_sublist _ ks)
    rw [take_succ_of_lt hjlen] at hnd'
    have hxnot : x ∉ ks.take ZMK_GAMING_MAX_KEYS_PER_DEVICE := fun hmem' =>
      (List.nodup_append.mp hnd').2.2 hmem' (List.mem_singleton_self x)
    have h0take : 0 ∉ ks.take ZMK_GAMING_MAX_KEYS_PER_DEVICE := fun hmem' =>
      (hall 0 (List.take_subset _ ks hmem')).1 rfl
    have hfull : pressSlots x
        (deviceKeys (pressSeqState zmkGamingInitState d
          (ks.take ZMK_GAMING_MAX_KEYS_PER_DEVICE)) d) = .full := by
      rw [hshape, Nat.sub_self, List.replicate_zero, List.append_nil]
      exact pressSlots_full h0take hxnot
    rw [hgetD, press_char _ d x hd, hfull]

/-- Witness for C3 at a concrete device and key list. -/
theorem C3_witness :
    (0 < ZMK_GAMING_DEVICE_COUNT) ∧
    ([1, 2, 3, 4, 5, 6, 7, 8, 9, 10, 11, 12, 13, 14, 15, 16, 17, 18,
      19] : List Nat).length = ZMK_GAMING_MAX_KEYS_PER_DEVICE + 1 ∧
    ([1, 2, 3, 4, 5, 6, 7, 8, 9, 10, 11, 12, 13, 14, 15, 16, 17, 18,
      19] : List Nat).Nodup ∧
    (∀ k ∈ ([1, 2, 3, 4, 5, 6, 7, 8, 9, 10, 11, 12, 13, 14, 15, 16, 17, 18,
      19] : List Nat), k ≠ 0 ∧ k < 256) ∧
    ((∀ j, j < ZMK_GAMING_MAX_KEYS_PER_DEVICE →
      (zmk_hid_gaming_keyboard_press
        (pressSeqState zmkGamingInitState 0
          (([1, 2, 3, 4, 5, 6, 7, 8, 9, 10, 11, 12, 13, 14, 15, 16, 17, 18,
            19] : List Nat).take j)) 0
        (([1, 2, 3, 4, 5, 6, 7, 8, 9, 10, 11, 12, 13, 14, 15, 16, 17, 18,
          19] : List Nat).getD j 0)).1 = 0) ∧
    (zmk_hid_gaming_keyboard_press
      (pressSeqState zmkGamingInitState 0
        (([1, 2, 3, 4, 5, 6, 7, 8, 9, 10, 11, 12, 13, 14, 15, 16, 17, 18,
          19] : List Nat).take ZMK_GAMING_MAX_KEYS_PER_DEVICE)) 0
      (([1, 2, 3, 4, 5, 6, 7, 8, 9, 10, 11, 12, 13, 14, 15, 16, 17, 18,
        19] : List Nat).getD ZMK_GAMING_MAX_KEYS_PER_DEVICE 0)) =
      (-ENOMEM, pressSeqState zmkGamingInitState 0
        (([1, 2, 3, 4, 5, 6, 7, 8, 9, 10, 11, 12, 13, 14, 15, 16, 17, 18,
          19] : List Nat).take ZMK_GAMING_MAX_KEYS_PER_DEVICE))) :=
  ⟨by decide, by decide, by decide, by decide,
    C3_capacity 0 [1, 2, 3, 4, 5, 6, 7, 8, 9, 10, 11, 12, 13, 14, 15, 16, 17,
      18, 19] (by decide) (by decide) (by decide) (by decide)⟩

/-! ## Classifier claims -/

/-- C4: `zmk_hid_gaming_get_device_for_position` is a total, deterministic,
side-effect-free function (each position maps to exactly one device index,
and the embedding is a pure function, so repeated calls agree), and every
position not covered by an explicit case label maps to the catch-all
rest-group device of the default branch. -/
theorem C4_classifier_total (p : Nat) (hp : p ∉ explicitCasePositions) :
    (∃! d, zmk_hid_gaming_get_device_for_position p = d) ∧
    zmk_hid_gaming_get_device_for_position p = ZMK_GAMING_DEVICE_GROUP_REST := by
  refine ⟨⟨zmk_hid_gaming_get_device_for_position p, rfl,
    fun y hy => hy.symm⟩, ?_⟩
  unfold zmk_hid_gaming_get_device_for_position
  split_ifs with hc1 hc2 hc3 hc4 hc5 hc6 hc7
  all_goals first
    | rfl
    | (exfalso
       casesm* _ ∨ _ <;> (subst_vars; exact hp (by decide)))

/-- Witness for C4 at position 0 (not an explicit case label). -/
theorem C4_witness :
    (0 : Nat) ∉ explicitCasePositions ∧
    ((∃! d, zmk_hid_gaming_get_device_for_position 0 = d) ∧
     zmk_hid_gaming_get_device_for_position 0 = ZMK_GAMING_DEVICE_GROUP_REST) :=
  ⟨by decide, C4_classifier_total 0 (by decide)⟩

/-- C10: every position classifies to a device index strictly below
`ZMK_GAMING_DEVICE_COUNT`, so `zmk_hid_gaming_position_press` on an
in-bounds position never takes the invalid-device-index branch of
`zmk_hid_gaming_keyboard_press`: its result is success or the capacity
error, never `-EINVAL`. -/
theorem C10_classifier_in_range (p : Nat) :
    zmk_hid_gaming_get_device_for_position p < ZMK_GAMING_DEVICE_COUNT ∧
    ∀ (s : GamingState) (k : Nat), p < GAMING_MAX_POSITIONS →
      ((zmk_hid_gaming_position_press s p k).1 = 0 ∨
       (zmk_hid_gaming_position_press s p k).1 = -ENOMEM) := by
  have hlt : zmk_hid_gaming_get_device_for_position p <
      ZMK_GAMING_DEVICE_COUNT := by
    unfold zmk_hid_gaming_get_device_for_position
    split_ifs <;> decide
  refine ⟨hlt, ?_⟩
  intro s k hp
  have hgen : ∀ t : GamingState,
      ((zmk_hid_gaming_keyboard_press t
        (zmk_hid_gaming_get_device_for_position p) k).1 = 0 ∨
       (zmk_hid_gaming_keyboard_press t
        (zmk_hid_gaming_get_device_for_position p) k).1 = -ENOMEM) := by
    intro t
    rw [press_char t _ k hlt]
    cases pressSlots k (deviceKeys t (zmk_hid_gaming_get_device_for_position p)) with
    | already => left; rfl
    | placed ks => left; rfl
    | full => right; rfl
  unfold zmk_hid_gaming_position_press
  rw [if_neg (Nat.not_le.mpr hp)]
  exact hgen _

/-- Witness for C10 at position 6 in the initial state. -/
theorem C10_witness :
    zmk_hid_gaming_get_device_for_position 6 < ZMK_GAMING_DEVICE_COUNT ∧
    (6 < GAMING_MAX_POSITIONS) ∧
    ((zmk_hid_gaming_position_press zmkGamingInitState 6 4).1 = 0 ∨
     (zmk_hid_gaming_position_press zmkGamingInitState 6 4).1 = -ENOMEM) :=
  ⟨(C10_classifier_in_range 6).1, by decide,
    (C10_classifier_in_range 6).2 zmkGamingInitState 4 (by decide)⟩

/-! ## Out-of-range device indices and redundant operations -/

/-- C6 counterexample: the claim asserts that every listed device-indexed
operation, `zmk_hid_gaming_keyboard_clear` included, hands the caller a
distinct error value on an out-of-range device index; but `clear` is a
`void` function, so at device index 8 the caller receives no value at all,
in particular not the invalid-argument error value. -/
theorem C6_counterexample :
    (runDevOp zmkGamingInitState DevOp.clear ZMK_GAMING_DEVICE_COUNT).1 =
      CRet.unit ∧ CRet.unit ≠ CRet.i (-EINVAL) :=
  ⟨rfl, by decide⟩

/-- C6 (amended): every device-indexed operation called with a device index
at or above `ZMK_GAMING_DEVICE_COUNT` changes no state (no report mutated,
nothing transmitted); the four `int`-returning operations (press, release,
register_mod, unregister_mod) return the distinct error value `-EINVAL`,
while `clear` is `void` and rejects silently, returning no value. -/
theorem C6_out_of_range (s : GamingState) (op : DevOp) (d : Nat)
    (hd : ZMK_GAMING_DEVICE_COUNT ≤ d) :
    (runDevOp s op d).2 = s ∧
    (op ≠ DevOp.clear → (runDevOp s op d).1 = CRet.i (-EINVAL)) ∧
    (op = DevOp.clear → (runDevOp s op d).1 = CRet.unit) := by
  cases op <;>
    simp [runDevOp, zmk_hid_gaming_keyboard_press,
      zmk_hid_gaming_keyboard_release, zmk_hid_gaming_register_mod,
      zmk_hid_gaming_unregister_mod, zmk_hid_gaming_keyboard_clear,
      if_pos hd]

/-- Witness for the amended C6 at device index 8. -/
theorem C6_witness :
    (ZMK_GAMING_DEVICE_COUNT ≤ 8) ∧
    ((runDevOp zmkGamingInitState (DevOp.press 4) 8).2 = zmkGamingInitState ∧
     (DevOp.press 4 ≠ DevOp.clear →
       (runDevOp zmkGamingInitState (DevOp.press 4) 8).1 = CRet.i (-EINVAL)) ∧
     (DevOp.press 4 = DevOp.clear →
       (runDevOp zmkGamingInitState (DevOp.press 4) 8).1 = CRet.unit)) :=
  ⟨by decide, C6_out_of_range zmkGamingInitState (DevOp.press 4) 8 (by decide)⟩

/-- C7: redundant operations are no-ops returning success: pressing a key
already occupying a slot of a device whose slots satisfy the report
invariant returns 0 and leaves the state (reports, tracking table,
transmission log) unchanged; releasing a key in no slot of the device
returns 0 and leaves the state unchanged; setting the activation flag to
its current value leaves the state unchanged (and, being `void`, signals
no error). -/
theorem C7_redundant_noops (s : GamingState) (d kIn kOut : Nat) (b : Bool)
    (hd : d < ZMK_GAMING_DEVICE_COUNT)
    (hwf : SlotsWF (deviceKeys s d))
    (hin : kIn ∈ deviceKeys s d)
    (hout : kOut ∉ deviceKeys s d)
    (hb : s.gaming_mode_active = b) :
    zmk_hid_gaming_keyboard_press s d kIn = (0, s) ∧
    zmk_hid_gaming_keyboard_release s d kOut = (0, s) ∧
    zmk_hid_gaming_set_active s b = s := by
  refine ⟨?_, ?_, ?_⟩
  · obtain ⟨fr, n, h0, hnd, hl⟩ := hwf
    have halready : pressSlots kIn (deviceKeys s d) = .already := by
      rw [hl] at hin ⊢
      rcases List.mem_append.mp hin with hf | hr
      · exact pressSlots_mem_front _ h0 hf
      · have hk0 : kIn = 0 := List.eq_of_mem_replicate hr
        cases n with
        | zero => simp at hr
        | succ m =>
          subst hk0
          rw [List.replicate_succ]
          exact pressSlots_zero_tail _ h0
    rw [press_char s d kIn hd, halready]
  · rw [release_char s d kOut hd, releaseSlots_not_mem hout]
  · unfold zmk_hid_gaming_set_active
    rw [if_pos hb]

/-- Witness for C7 at a concrete state with key 4 held on device 0. -/
theorem C7_witness :
    (0 < ZMK_GAMING_DEVICE_COUNT) ∧
    SlotsWF (deviceKeys
      (zmk_hid_gaming_keyboard_press zmkGamingInitState 0 4).2 0) ∧
    4 ∈ deviceKeys (zmk_hid_gaming_keyboard_press zmkGamingInitState 0 4).2 0 ∧
    5 ∉ deviceKeys (zmk_hid_gaming_keyboard_press zmkGamingInitState 0 4).2 0 ∧
    ((zmk_hid_gaming_keyboard_press zmkGamingInitState 0 4).2).gaming_mode_active
      = true ∧
    (zmk_hid_gaming_keyboard_press
      (zmk_hid_gaming_keyboard_press zmkGamingInitState 0 4).2 0 4 =
      (0, (zmk_hid_gaming_keyboard_press zmkGamingInitState 0 4).2) ∧
     zmk_hid_gaming_keyboard_release
      (zmk_hid_gaming_keyboard_press zmkGamingInitState 0 4).2 0 5 =
      (0, (zmk_hid_gaming_keyboard_press zmkGamingInitState 0 4).2) ∧
     zmk_hid_gaming_set_active
      (zmk_hid_gaming_keyboard_press zmkGamingInitState 0 4).2 true =
      (zmk_hid_gaming_keyboard_press zmkGamingInitState 0 4).2) :=
  ⟨by decide, ⟨[4], 17, by decide, by decide, by decide⟩, by decide, by decide,
    by decide,
    C7_redundant_noops (zmk_hid_gaming_keyboard_press zmkGamingInitState 0 4).2
      0 4 5 true (by decide) ⟨[4], 17, by decide, by decide, by decide⟩
      (by decide) (by decide) (by decide)⟩

/-! ## Tracking table -/

theorem pressed_keys_press (t : GamingState) (d k : Nat) :
    ((zmk_hid_gaming_keyboard_press t d k).2).gaming_pressed_keys =
      t.gaming_pressed_keys := by
  by_cases hd : d < ZMK_GAMING_DEVICE_COUNT
  · rw [press_char t d k hd]
    cases pressSlots k (deviceKeys t d) with
    | already => rfl
    | placed ks => rfl
    | full => rfl
  · unfold zmk_hid_gaming_keyboard_press
    rw [if_pos (Nat.not_lt.mp hd)]

theorem pressed_keys_release (t : GamingState) (d k : Nat) :
    ((zmk_hid_gaming_keyboard_release t d k).2).gaming_pressed_keys =
      t.gaming_pressed_keys := by
  by_cases hd : d < ZMK_GAMING_DEVICE_COUNT
  · rw [release_char t d k hd]
    cases releaseSlots k (deviceKeys t d) with
    | none => rfl
    | some ks => rfl
  · unfold zmk_hid_gaming_keyboard_release
    rw [if_pos (Nat.not_lt.mp hd)]

theorem tableGet_posPress (s : GamingState) (q k p : Nat) :
    tableGet (zmk_hid_gaming_position_press s q k).2 p =
      if q = p ∧ q < GAMING_MAX_POSITIONS then k % 256 else tableGet s p := by
  unfold zmk_hid_gaming_position_press
  by_cases hq : GAMING_MAX_POSITIONS ≤ q
  · rw [if_pos hq, if_neg (fun h => absurd h.2 (Nat.not_lt.mpr hq))]
  · rw [if_neg hq]
    simp only [tableGet]
    rw [pressed_keys_press]
    by_cases hqp : q = p
    · subst hqp
      rw [if_pos ⟨rfl, Nat.not_le.mp hq⟩]
      simp [Function.update_same]
    · rw [if_neg (fun h => hqp h.1)]
      simp [Function.update_noteq (Ne.symm hqp)]

theorem tableGet_posRelease (s : GamingState) (q p : Nat) :
    tableGet (zmk_hid_gaming_position_release s q).2 p =
      if q = p ∧ q < GAMING_MAX_POSITIONS then 0 else tableGet s p := by
  unfold zmk_hid_gaming_position_release
  by_cases hq : GAMING_MAX_POSITIONS ≤ q
  · rw [if_pos hq, if_neg (fun h => absurd h.2 (Nat.not_lt.mpr hq))]
  · rw [if_neg hq]
    by_cases hz : s.gaming_pressed_keys q = 0
    · rw [if_pos hz]
      by_cases hqp : q = p
      · subst hqp
        rw [if_pos ⟨rfl, Nat.not_le.mp hq⟩]
        exact hz
      · rw [if_neg (fun h => hqp h.1)]
    · rw [if_neg hz]
      simp only [tableGet]
      rw [pressed_keys_release]
      by_cases hqp : q = p
      · subst hqp
        rw [if_pos ⟨rfl, Nat.not_le.mp hq⟩]
        simp [Function.update_same]
      · rw [if_neg (fun h => hqp h.1)]
        simp [Function.update_noteq (Ne.symm hqp)]

theorem runPosEvents_table (evs : List PosEvent) :
    ∀ (s : GamingState) (p : Nat),
      tableGet (runPosEvents s evs) p =
        evs.foldl
          (fun t e =>
            match e with
            | PosEvent.press q k =>
                if q = p ∧ q < GAMING_MAX_POSITIONS then k % 256 else t
            | PosEvent.release q =>
                if q = p ∧ q < GAMING_MAX_POSITIONS then 0 else t)
          (tableGet s p) := by
  induction evs with
  | nil => intro s p; rfl
  | cons e evs ih =>
    intro s p
    cases e with
    | press q k =>
      show tableGet (runPosEvents (zmk_hid_gaming_position_press s q k).2 evs) p
        = _
      rw [ih, tableGet_posPress]
      rfl
    | release q =>
      show tableGet (runPosEvents (zmk_hid_gaming_position_release s q).2 evs) p
        = _
      rw [ih, tableGet_posRelease]
      rfl

theorem trackTable_snoc_press (evs : List PosEvent) (q k p : Nat) :
    trackTable (evs ++ [PosEvent.press q k]) p =
      if q = p ∧ q < GAMING_MAX_POSITIONS then k % 256 else trackTable evs p := by
  unfold trackTable
  rw [List.foldl_append]
  rfl

theorem trackTable_snoc_release (evs : List PosEvent) (q p : Nat) :
    trackTable (evs ++ [PosEvent.release q]) p =
      if q = p ∧ q < GAMING_MAX_POSITIONS then 0 else trackTable evs p := by
  unfold trackTable
  rw [List.foldl_append]
  rfl

theorem trackTable_last (p : Nat) (hp : p < GAMING_MAX_POSITIONS)
    (evs : List PosEvent) :
    trackTable evs p ≠ 0 →
      ∃ t1 k t2, evs = t1 ++ PosEvent.press p k :: t2 ∧
        k % 256 = trackTable evs p ∧ ∀ e ∈ t2, PosEvent.epos e ≠ p := by
  induction evs using List.reverseRecOn with
  | nil => intro h; exact absurd rfl h
  | append_singleton evs e ih =>
    intro h
    cases e with
    | press q k =>
      by_cases hqp : q = p ∧ q < GAMING_MAX_POSITIONS
      · refine ⟨evs, k, [], by rw [hqp.1], ?_, by simp⟩
        rw [trackTable_snoc_press, if_pos hqp]
      · rw [trackTable_snoc_press, if_neg hqp] at h ⊢
        obtain ⟨t1, k1, t2, heq, hk, hnone⟩ := ih h
        refine ⟨t1, k1, t2 ++ [PosEvent.press q k], ?_, hk, ?_⟩
        · rw [heq]
          simp
        · intro e1 he1
          rcases List.mem_append.mp he1 with h1 | h1
          · exact hnone e1 h1
          · rw [List.mem_singleton.mp h1]
            intro hq
            have hq2 : q = p := hq
            exact hqp ⟨hq2, by rw [hq2]; exact hp⟩
    | release q =>
      by_cases hqp : q = p ∧ q < GAMING_MAX_POSITIONS
      · rw [trackTable_snoc_release, if_pos hqp] at h
        exact absurd rfl h
      · rw [trackTable_snoc_release, if_neg hqp] at h ⊢
        obtain ⟨t1, k1, t2, heq, hk, hnone⟩ := ih h
        refine ⟨t1, k1, t2 ++ [PosEvent.release q], ?_, hk, ?_⟩
        · rw [heq]
          simp
        · intro e1 he1
          rcases List.mem_append.mp he1 with h1 | h1
          · exact hnone e1 h1
          · rw [List.mem_singleton.mp h1]
            intro hq
            have hq2 : q = p := hq
            exact hqp ⟨hq2, by rw [hq2]; exact hp⟩

/-- C5 counterexample: press nineteen distinct keys at nineteen positions
that all classify to the rest-group device; the nineteenth press is
rejected for capacity, yet the tracking table still maps its position to
the key, which was never delivered to (and is absent from) the classified
device's report.  This refutes the claimed invariant that a nonzero table
entry was successfully delivered and not yet released. -/
theorem C5_counterexample :
    ¬ TrackedKeyDelivered
      (runPosEvents zmkGamingInitState
        ((List.range 19).map (fun i => PosEvent.press (43 + i) (i + 1)))) 61 := by
  intro h
  have h2 := h (by decide)
  revert h2
  decide

/-- C5 (amended): the tracking table is a pure function of the per-position
press/release history: after any sequence of position press/release calls
from the initial state, position `p` maps to exactly the value dictated by
its own event history, and whenever that value is a nonzero key `k`, the
most recent event for `p` was a press carrying a key congruent to `k`
(mod 256) — i.e. a press for `p` was routed (possibly rejected for
capacity) and not yet released. -/
theorem C5_tracking_invariant (evs : List PosEvent) (p : Nat)
    (hp : p < GAMING_MAX_POSITIONS) :
    tableGet (runPosEvents zmkGamingInitState evs) p = trackTable evs p ∧
    (trackTable evs p ≠ 0 →
      ∃ t1 k t2, evs = t1 ++ PosEvent.press p k :: t2 ∧
        k % 256 = trackTable evs p ∧ ∀ e ∈ t2, PosEvent.epos e ≠ p) := by
  constructor
  · rw [runPosEvents_table evs zmkGamingInitState p]
    rfl
  · exact trackTable_last p hp evs

/-- Witness for the amended C5 at a concrete event sequence and position. -/
theorem C5_witness :
    (6 < GAMING_MAX_POSITIONS) ∧
    (tableGet (runPosEvents zmkGamingInitState [PosEvent.press 6 4]) 6 =
      trackTable [PosEvent.press 6 4] 6 ∧
     (trackTable [PosEvent.press 6 4] 6 ≠ 0 →
      ∃ t1 k t2, [PosEvent.press 6 4] = t1 ++ PosEvent.press 6 k :: t2 ∧
        k % 256 = trackTable [PosEvent.press 6 4] 6 ∧
        ∀ e ∈ t2, PosEvent.epos e ≠ 6)) :=
  ⟨by decide, C5_tracking_invariant [PosEvent.press 6 4] 6 (by decide)⟩

/-! ## Clearing and the activation gate -/

theorem clearUpTo_spec (s : GamingState) :
    ∀ j, j ≤ ZMK_GAMING_DEVICE_COUNT →
      clearUpTo s j =
        { gaming_mode_active := s.gaming_mode_active,
          gaming_reports := fun i =>
            if i < j then clearedRep s i else s.gaming_reports i,
          gaming_pressed_keys := s.gaming_pressed_keys,
          sentLog := s.sentLog ++
            (List.range j).map (fun i => ⟨i, clearedRep s i⟩) } := by
  intro j
  induction j with
  | zero =>
    intro _
    show s = _
    simp
  | succ j ih =>
    intro hj
    have hjlt : j < ZMK_GAMING_DEVICE_COUNT := Nat.lt_of_succ_le hj
    have hstep : clearUpTo s (j + 1) =
        zmk_hid_gaming_keyboard_clear (clearUpTo s j) j := by
      unfold clearUpTo
      rw [List.range_succ, List.foldl_append]
      rfl
    rw [hstep, ih (Nat.le_of_succ_le hj), clear_char _ j hjlt]
    have hrepj : clearedRep
        { gaming_mode_active := s.gaming_mode_active,
          gaming_reports := fun i =>
            if i < j then clearedRep s i else s.gaming_reports i,
          gaming_pressed_keys := s.gaming_pressed_keys,
          sentLog := s.sentLog ++
            (List.range j).map (fun i => ⟨i, clearedRep s i⟩) } j =
        clearedRep s j := by
      simp [clearedRep, stampedRep]
    refine GamingState.ext rfl ?_ rfl ?_
    · show Function.update
        (fun i => if i < j then clearedRep s i else s.gaming_reports i) j
        (stampedRep _ j (List.replicate ZMK_GAMING_MAX_KEYS_PER_DEVICE 0)) = _
      have hsr : stampedRep
          { gaming_mode_active := s.gaming_mode_active,
            gaming_reports := fun i =>
              if i < j then clearedRep s i else s.gaming_reports i,
            gaming_pressed_keys := s.gaming_pressed_keys,
            sentLog := s.sentLog ++
              (List.range j).map (fun i => ⟨i, clearedRep s i⟩) } j
          (List.replicate ZMK_GAMING_MAX_KEYS_PER_DEVICE 0) =
          clearedRep s j := hrepj
      rw [hsr]
      funext i
      by_cases hij : i = j
      · subst hij
        simp [Function.update_same]
      · rw [Function.update_noteq hij]
        show (if i < j then clearedRep s i else s.gaming_reports i) =
          if i < j + 1 then clearedRep s i else s.gaming_reports i
        by_cases hlt : i < j
        · rw [if_pos hlt, if_pos (show i < j + 1 by omega)]
        · rw [if_neg hlt, if_neg (show ¬ i < j + 1 by omega)]
    · show (s.sentLog ++ (List.range j).map (fun i => ⟨i, clearedRep s i⟩)) ++
          [⟨j, stampedRep _ j (List.replicate ZMK_GAMING_MAX_KEYS_PER_DEVICE 0)⟩]
          = _
      rw [show stampedRep
          { gaming_mode_active := s.gaming_mode_active,
            gaming_reports := fun i =>
              if i < j then clearedRep s i else s.gaming_reports i,
            gaming_pressed_keys := s.gaming_pressed_keys,
            sentLog := s.sentLog ++
              (List.range j).map (fun i => ⟨i, clearedRep s i⟩) } j
          (List.replicate ZMK_GAMING_MAX_KEYS_PER_DEVICE 0) =
          clearedRep s j from hrepj]
      rw [List.range_succ, List.map_append, List.append_assoc]
      rfl

theorem send_step (t : GamingState) (i : Nat)
    (hi : i < ZMK_GAMING_DEVICE_COUNT)
    (hid : (t.gaming_reports i).report_id =
      ZMK_HID_GAMING_REPORT_ID_LEFT_HALF + i) :
    (zmk_hid_gaming_send_report t i).2 =
      { t with sentLog := t.sentLog ++ [⟨i, t.gaming_reports i⟩] } := by
  unfold zmk_hid_gaming_send_report
  rw [if_neg (Nat.not_le.mpr hi)]
  simp only []
  have hr : { t.gaming_reports i with
      report_id := ZMK_HID_GAMING_REPORT_ID_LEFT_HALF + i } =
      t.gaming_reports i := by
    cases ht : t.gaming_reports i with
    | mk rid rbody =>
      rw [ht] at hid
      simp only [] at hid
      simp [hid]
  rw [hr, Function.update_eq_self]

theorem sendUpTo_spec (t : GamingState)
    (hid : ∀ i, i < ZMK_GAMING_DEVICE_COUNT →
      (t.gaming_reports i).report_id = ZMK_HID_GAMING_REPORT_ID_LEFT_HALF + i) :
    ∀ j, j ≤ ZMK_GAMING_DEVICE_COUNT →
      sendUpTo t j =
        { t with sentLog := t.sentLog ++
            (List.range j).map (fun i => ⟨i, t.gaming_reports i⟩) } := by
  intro j
  induction j with
  | zero =>
    intro _
    show t = _
    simp
  | succ j ih =>
    intro hj
    have hjlt : j < ZMK_GAMING_DEVICE_COUNT := Nat.lt_of_succ_le hj
    have hstep : sendUpTo t (j + 1) =
        (zmk_hid_gaming_send_report (sendUpTo t j) j).2 := by
      unfold sendUpTo
      rw [List.range_succ, List.foldl_append]
      rfl
    rw [hstep, ih (Nat.le_of_succ_le hj),
      send_step { t with sentLog := t.sentLog ++
        (List.range j).map (fun i => ⟨i, t.gaming_reports i⟩) } j hjlt
        (hid j hjlt)]
    refine GamingState.ext rfl rfl rfl ?_
    show (t.sentLog ++ (List.range j).map (fun i => ⟨i, t.gaming_reports i⟩)) ++
        [⟨j, t.gaming_reports j⟩] = _
    rw [List.range_succ, List.map_append, List.append_assoc]
    rfl

/-- C8 counterexample: from a prior state in which device 0 carries
modifier bit 2, `zmk_hid_gaming_keyboard_clear_all` leaves that modifier
bit set, so the resulting report is not the all-zero
`{report_id, 0, 0, ..., 0}` the claim asserts for every prior state. -/
theorem C8_counterexample :
    ((zmk_hid_gaming_keyboard_clear_all
      (zmk_hid_gaming_register_mod zmkGamingInitState 0 2).2).gaming_reports
        0).body.modifiers = 2 ∧ (2 : Nat) ≠ 0 :=
  ⟨by decide, by decide⟩

/-- C8 (amended): for every prior state (the device count being fixed),
after `zmk_hid_gaming_keyboard_clear_all()` every device `i`'s report has
`report_id = 0x10 + i`, all 18 key slots zero, and the modifier bitmask
(and reserved byte) untouched, equal to its value before the call; the
report equals `{0x10 + i, 0, 0, ..., 0}` exactly when the modifiers and
reserved byte were already zero.  Devices outside the range are not
touched. -/
theorem C8_clear_all_reports (s : GamingState) (i : Nat) :
    (zmk_hid_gaming_keyboard_clear_all s).gaming_reports i =
      if i < ZMK_GAMING_DEVICE_COUNT then
        { report_id := ZMK_HID_GAMING_REPORT_ID_LEFT_HALF + i,
          body := { modifiers := (s.gaming_reports i).body.modifiers,
                    reserved := (s.gaming_reports i).body.reserved,
                    keys := List.replicate ZMK_GAMING_MAX_KEYS_PER_DEVICE 0 } }
      else s.gaming_reports i := by
  rw [show zmk_hid_gaming_keyboard_clear_all s = clearUpTo s
      ZMK_GAMING_DEVICE_COUNT from rfl,
    clearUpTo_spec s ZMK_GAMING_DEVICE_COUNT (le_refl _)]
  show (if i < ZMK_GAMING_DEVICE_COUNT then clearedRep s i
    else s.gaming_reports i) = _
  by_cases hi : i < ZMK_GAMING_DEVICE_COUNT
  · rw [if_pos hi, if_pos hi]
    rfl
  · rw [if_neg hi, if_neg hi]

/-- C9: `zmk_hid_gaming_set_active(b)` with `b` equal to the current flag
performs no clear and no transmission (the state is unchanged); with `b`
different it always clears every device in ascending device-index order
(transmitting each cleared report once), and on a transition to active it
additionally transmits exactly one snapshot report per device, again in
ascending order, the snapshot being the just-cleared report. -/
theorem C9_set_active (s : GamingState) (b : Bool) :
    zmk_hid_gaming_set_active s b =
      if s.gaming_mode_active = b then s
      else
        { gaming_mode_active := b,
          gaming_reports := fun i =>
            if i < ZMK_GAMING_DEVICE_COUNT then clearedRep s i
            else s.gaming_reports i,
          gaming_pressed_keys := s.gaming_pressed_keys,
          sentLog := s.sentLog ++
            (List.range ZMK_GAMING_DEVICE_COUNT).map
              (fun i => ⟨i, clearedRep s i⟩) ++
            (if b then
              (List.range ZMK_GAMING_DEVICE_COUNT).map
                (fun i => ⟨i, clearedRep s i⟩)
             else []) } := by
  unfold zmk_hid_gaming_set_active
  by_cases hb : s.gaming_mode_active = b
  · rw [if_pos hb, if_pos hb]
  · rw [if_neg hb, if_neg hb]
    simp only []
    have hca : zmk_hid_gaming_keyboard_clear_all
        { s with gaming_mode_active := b } =
        clearUpTo { s with gaming_mode_active := b }
          ZMK_GAMING_DEVICE_COUNT := rfl
    have hcr : ∀ i, clearedRep { s with gaming_mode_active := b } i =
        clearedRep s i := fun i => rfl
    cases b with
    | false =>
      rw [if_neg (by simp)]
      rw [hca, clearUpTo_spec _ ZMK_GAMING_DEVICE_COUNT (le_refl _)]
      refine GamingState.ext rfl rfl rfl ?_
      simp [hcr]
    | true =>
      rw [if_pos rfl]
      have hsa : sendAllReports (zmk_hid_gaming_keyboard_clear_all
          { s with gaming_mode_active := true }) =
          sendUpTo (zmk_hid_gaming_keyboard_clear_all
            { s with gaming_mode_active := true })
            ZMK_GAMING_DEVICE_COUNT := rfl
      rw [hsa, hca, clearUpTo_spec _ ZMK_GAMING_DEVICE_COUNT (le_refl _)]
      rw [sendUpTo_spec _ ?hid ZMK_GAMING_DEVICE_COUNT (le_refl _)]
      case hid =>
        intro i hi
        show (if i < ZMK_GAMING_DEVICE_COUNT then
            clearedRep { s with gaming_mode_active := true } i
          else ({ s with gaming_mode_active := true } :
            GamingState).gaming_reports i).report_id = _
        rw [if_pos hi]
        rfl
      refine GamingState.ext rfl ?_ rfl ?_
      · funext i
        show (if i < ZMK_GAMING_DEVICE_COUNT then clearedRep s i
          else s.gaming_reports i) = _
        rfl
      · show (s.sentLog ++ (List.range ZMK_GAMING_DEVICE_COUNT).map
            (fun i => ⟨i, clearedRep s i⟩)) ++
            (List.range ZMK_GAMING_DEVICE_COUNT).map (fun i =>
              (⟨i, if i < ZMK_GAMING_DEVICE_COUNT then clearedRep s i
                else s.gaming_reports i⟩ : SentReport)) = _
        have hmap : (List.range ZMK_GAMING_DEVICE_COUNT).map (fun i =>
            (⟨i, if i < ZMK_GAMING_DEVICE_COUNT then clearedRep s i
              else s.gaming_reports i⟩ : SentReport)) =
            (List.range ZMK_GAMING_DEVICE_COUNT).map
              (fun i => ⟨i, clearedRep s i⟩) := by
          apply List.map_congr_left
          intro a ha
          rw [if_pos (List.mem_range.mp ha)]
        rw [hmap]
        simp
